import Mathlib

/-!
Verification development for the exceltojson repository: the Workbook
Extraction & Chunking Engine (spec §4.6, §8) and the frontend options UI
(src/frontend/src/App.jsx, src/frontend/src/components/OptionsPanel.jsx).

The Python backend (api/convert.py, backend/main.py) is not part of the
available sources; every definition whose doc comment starts with
"Modelled from the spec:" embeds the missing backend component from the
specification's words.  The frontend definitions are embedded from the
React sources directly.
-/

namespace ExcelToJson

/-- Modelled from the spec: an Address is a single cell's (column, row)
location within a sheet, both 1-indexed (spec §3, Glossary). -/
structure Address where
  col : Nat
  row : Nat
deriving DecidableEq, Repr

/-- Modelled from the spec: a Range is a rectangular region given by its
top-left and bottom-right Addresses (spec §3). -/
structure Range where
  topLeft : Address
  bottomRight : Address
deriving DecidableEq, Repr

/-- Modelled from the spec: a raw cell value is a number, text, boolean,
datetime or empty (spec §3, Cell). -/
inductive CellValue where
  | num (v : Int)
  | str (s : String)
  | bool (b : Bool)
  | datetime (t : Int)
  | empty
deriving DecidableEq, Repr

/-- Modelled from the spec: a Table has a name, a Range (whose first row is
the header row) and an ordered list of header strings, one per data column
(spec §3, Table). -/
structure Table where
  name : String
  range : Range
  headers : List String
deriving DecidableEq, Repr

/-- Modelled from the spec: a Section is an inferred region of contiguous
non-empty text cells: bounding Range, aggregated text and the ordered list
of member Addresses in reading order (spec §3, Section). -/
structure Section where
  range : Range
  text : String
  cells : List Address
deriving DecidableEq, Repr

/-- Modelled from the spec: a Sheet as consumed by the chunking stage:
name, address-to-value cell map, extracted Tables and inferred Sections,
plus formulas, comments/hyperlinks and named-range bindings (spec §3, §6). -/
structure Sheet where
  name : String
  cells : List (Address × CellValue)
  tables : List Table
  sections : List Section
  formulas : List (Address × String)
  comments : List (Address × String)
  namedRanges : List (String × Range)
deriving DecidableEq, Repr

/-- Modelled from the spec: a Workbook is an ordered sequence of Sheets
(spec §3). -/
structure Workbook where
  sheets : List Sheet
deriving DecidableEq, Repr

/-- Configuration surface consumed by the engine: the six include toggles
and `chunk_max_cells` (spec §6; README "API Usage").  `chunk_max_cells` is
an `Int` so the documented configuration-error case (values ≤ 0) is
representable. -/
structure Config where
  include_formulas : Bool
  include_cells : Bool
  include_comments : Bool
  include_named_ranges : Bool
  include_excel_tables : Bool
  include_inferred_sections : Bool
  chunk_max_cells : Int
deriving DecidableEq, Repr

/-- Modelled from the spec: `chunk_id` is a deterministic function of the
sheet name, the range string and a content digest of the member cell
values; the spec asserts the digest is collision-free for distinct
content (spec §4.6, §3 Chunk), so the digest is modelled as the member
value list itself, an injective digest. -/
structure ChunkId where
  sheet : String
  rangeStr : String
  digest : List CellValue
deriving DecidableEq, Repr

/-- Modelled from the spec: a Chunk with its id, kind ("table" or
"section"), source sheet name, source Range, generated text and ordered
member cell Addresses (spec §3, Chunk). -/
structure Chunk where
  chunk_id : ChunkId
  kind : String
  sheet : String
  range : Range
  text : String
  cells : List Address
deriving DecidableEq, Repr

/-- Structural worker for `colLetters`; the fuel bounds the recursion
depth and never runs out when it starts at the column number itself. -/
def colLettersAux : Nat → Nat → String
  | _, 0 => ""
  | 0, _ + 1 => ""
  | fuel + 1, n + 1 =>
    colLettersAux fuel (n / 26) ++ String.singleton (Char.ofNat (65 + n % 26))

/-- Column number to base-26 letters, 1-indexed: 1 ↦ "A", 26 ↦ "Z",
27 ↦ "AA" (spec §3: column encoded as base-26 letters). -/
def colLetters (n : Nat) : String := colLettersAux n n

/-- Render an Address as e.g. "A1". -/
def addrStr (a : Address) : String := colLetters a.col ++ toString a.row

/-- Render a Range as e.g. "A1:D5". -/
def rangeStr (r : Range) : String := addrStr r.topLeft ++ ":" ++ addrStr r.bottomRight

/-- Look up the value stored at an address; absent cells read as empty. -/
def Sheet.valueAt (s : Sheet) (a : Address) : CellValue :=
  match s.cells.find? (fun p => decide (p.1 = a)) with
  | some p => p.2
  | none => CellValue.empty

/-- Modelled from the spec: the content digest of a list of member cells is
the list of their values (an injective digest, as the spec asserts
collision-freedom for distinct content; spec §4.6). -/
def digestOf (s : Sheet) (cells : List Address) : List CellValue :=
  cells.map s.valueAt

/-- Number of data columns of a table: one per header (spec §4.4: column
count = header length). -/
def Table.cols (t : Table) : Nat := t.headers.length

/-- Number of data rows of a table: the rows of its range below the header
row (spec §3: one record per data row below the header). -/
def Table.dataRowCount (t : Table) : Nat :=
  t.range.bottomRight.row - t.range.topLeft.row

/-- The data row indices of a table, in ascending order. -/
def Table.dataRows (t : Table) : List Nat :=
  List.range' (t.range.topLeft.row + 1) t.dataRowCount

/-- The member cells of one data row of a table, left to right. -/
def Table.rowCells (t : Table) (r : Nat) : List Address :=
  (List.range' t.range.topLeft.col t.cols).map (fun c => ⟨c, r⟩)

/-- All data cells of a table in row-major order. -/
def Table.dataCells (t : Table) : List Address :=
  t.dataRows.flatMap t.rowCells

/-- Structural worker for `groupsOf`; the fuel bounds the recursion depth
and never runs out when it starts at the list length. -/
def groupsOfAux (k : Nat) : Nat → List α → List (List α)
  | _, [] => []
  | 0, _ :: _ => []
  | fuel + 1, a :: l =>
    if k = 0 then []
    else (a :: l.take (k - 1)) :: groupsOfAux k fuel (l.drop (k - 1))

/-- Split a list into consecutive groups of at most `k` elements (the last
group may be smaller); `k = 0` yields no groups. -/
def groupsOf (k : Nat) (l : List α) : List (List α) := groupsOfAux k l.length l

/-- Modelled from the spec: the chunks of one Table.  If the data cell count
exceeds the cap the table is split on row boundaries into the fewest
possible chunks of at most `cap` member cells, each restating the table
name and headers in its generated text (spec §4.6 splitting rule). -/
def chunksOfTable (s : Sheet) (cap : Nat) (t : Table) : List Chunk :=
  (groupsOf (cap / t.cols) t.dataRows).map (fun g =>
    let cells := g.flatMap t.rowCells
    let rng : Range :=
      ⟨⟨t.range.topLeft.col, g.headD 0⟩,
       ⟨t.range.topLeft.col + t.cols - 1, g.getLastD 0⟩⟩
    { chunk_id := ⟨s.name, rangeStr rng, digestOf s cells⟩
      kind := "table"
      sheet := s.name
      range := rng
      text := "Table " ++ t.name ++ " with " ++ toString g.length ++
        " rows. Columns: " ++ String.intercalate ", " t.headers ++ "."
      cells := cells })

/-- Modelled from the spec: the chunks of one Section.  A section larger
than the cap is split into contiguous sub-runs of its member cells in
row-major order, each carrying the section text for context (spec §4.6). -/
def chunksOfSection (s : Sheet) (cap : Nat) (sec : Section) : List Chunk :=
  (groupsOf cap sec.cells).map (fun g =>
    let rng : Range := ⟨g.headD ⟨0, 0⟩, g.getLastD ⟨0, 0⟩⟩
    { chunk_id := ⟨s.name, rangeStr rng, digestOf s g⟩
      kind := "section"
      sheet := s.name
      range := rng
      text := sec.text
      cells := g })

/-- Rank used as a deterministic tie-break between chunk kinds sharing a
top-left address. -/
def kindRank (k : String) : Nat := if k = "table" then 0 else 1

/-- Modelled from the spec: the total emission order within a sheet —
ascending top-left Address (row-major), with the chunk kind as a
deterministic tie-break (spec §4.6 output ordering). -/
def chunkLE (a b : Chunk) : Bool :=
  decide (a.range.topLeft.row < b.range.topLeft.row ∨
    (a.range.topLeft.row = b.range.topLeft.row ∧
      (a.range.topLeft.col < b.range.topLeft.col ∨
        (a.range.topLeft.col = b.range.topLeft.col ∧
          kindRank a.kind ≤ kindRank b.kind))))

/-- Modelled from the spec: all chunks of one sheet — table chunks and
section chunks of the enabled categories, sorted by the total order of
spec §4.6. -/
def sheetChunks (cap : Nat) (cfg : Config) (s : Sheet) : List Chunk :=
  ((if cfg.include_excel_tables then s.tables.flatMap (chunksOfTable s cap) else []) ++
   (if cfg.include_inferred_sections then s.sections.flatMap (chunksOfSection s cap) else [])).mergeSort
    chunkLE

/-- Modelled from the spec: the serialized per-sheet output; disabled
categories are omitted (`none`) from the output (spec §6). -/
structure SheetOut where
  name : String
  cellsOut : Option (List (String × CellValue))
  formulasOut : Option (List (String × String))
  commentsOut : Option (List (String × String))
  namedRangesOut : Option (List (String × String))
  tablesOut : Option (List Table)
  sectionsOut : Option (List Section)
  chunks : List Chunk
deriving DecidableEq, Repr

/-- Modelled from the spec: serialize one sheet under a configuration
(spec §6: each option independently removes its category from the
serialized output). -/
def serializeSheet (cfg : Config) (cap : Nat) (s : Sheet) : SheetOut where
  name := s.name
  cellsOut :=
    if cfg.include_cells then some (s.cells.map (fun p => (addrStr p.1, p.2))) else none
  formulasOut :=
    if cfg.include_formulas then some (s.formulas.map (fun p => (addrStr p.1, p.2))) else none
  commentsOut :=
    if cfg.include_comments then some (s.comments.map (fun p => (addrStr p.1, p.2))) else none
  namedRangesOut :=
    if cfg.include_named_ranges then some (s.namedRanges.map (fun p => (p.1, rangeStr p.2))) else none
  tablesOut := if cfg.include_excel_tables then some s.tables else none
  sectionsOut := if cfg.include_inferred_sections then some s.sections else none
  chunks := sheetChunks cap cfg s

/-- Error message for the configuration-error case (spec §4.6, §7). -/
def configErrMsg : String := "chunk_max_cells must be a positive integer"

/-- Modelled from the spec: the engine entry point.  A configuration with
`chunk_max_cells` ≤ 0 is rejected before any workbook processing begins
(fatal for the request); otherwise every sheet is serialized in workbook
order (spec §4.6, §6, §7). -/
def runEngine (wb : Workbook) (cfg : Config) : Except String (List SheetOut) :=
  if cfg.chunk_max_cells ≤ 0 then Except.error configErrMsg
  else Except.ok (wb.sheets.map (serializeSheet cfg cfg.chunk_max_cells.toNat))

/-- The flattened chunk sequence of a run, in sheet order then the
per-sheet total order — the streaming (line-delimited) emission order. -/
def engineChunks (wb : Workbook) (cfg : Config) : List Chunk :=
  wb.sheets.flatMap (sheetChunks cfg.chunk_max_cells.toNat cfg)

/-! ## Formula Reference Parser (spec §4.2)

Modelled from the spec: the backend's formula-reference lexer is absent
from the sources; the grammar below follows spec §4.2 —
`[Sheet!]Column+Row` or `[Sheet!]Address:Address`, relative/absolute
markers (`$`) normalized away, string literals skipped, function names
never parsed as references, and the result deduplicated. -/

/-- Characters allowed inside an identifier (sheet names, function names). -/
def isIdentChar (c : Char) : Bool := c.isAlpha || c.isDigit || c = '_'

/-- Match a column part at the head of the input: an optional `$` followed
by one or more letters; returns the number of characters consumed. -/
def matchCol (l : List Char) : Option Nat :=
  let d := if l.head? = some '$' then 1 else 0
  let n := ((l.drop d).takeWhile Char.isAlpha).length
  if n = 0 then none else some (d + n)

/-- Match a row part at the head of the input: an optional `$` followed by
one or more digits. -/
def matchRowNum (l : List Char) : Option Nat :=
  let d := if l.head? = some '$' then 1 else 0
  let n := ((l.drop d).takeWhile Char.isDigit).length
  if n = 0 then none else some (d + n)

/-- Match a single cell address (column part then row part). -/
def matchCell (l : List Char) : Option Nat :=
  (matchCol l).bind (fun a => (matchRowNum (l.drop a)).map (fun b => a + b))

/-- Match a cell address, extended to a range (`Address:Address`) when a
colon and a second address follow. -/
def matchCellRange (l : List Char) : Option Nat :=
  (matchCell l).map (fun a =>
    if (l.drop a).head? = some ':' then
      match matchCell (l.drop (a + 1)) with
      | some b => a + 1 + b
      | none => a
    else a)

/-- Match a sheet-name qualifier `Sheet!` at the head of the input. -/
def matchSheetName (l : List Char) : Option Nat :=
  let n := (l.takeWhile isIdentChar).length
  if n = 0 then none
  else if (l.drop n).head? = some '!' then some (n + 1) else none

/-- Match an optionally sheet-qualified cell or range reference. -/
def matchRefCore (l : List Char) : Option Nat :=
  match matchSheetName l with
  | some p => (matchCellRange (l.drop p)).map (p + ·)
  | none => matchCellRange l

/-- A candidate reference is rejected when followed by an identifier
character (it is part of a longer identifier) or by `(` (it is a function
name such as `LOG10(`). -/
def refBoundary (l : List Char) : Bool :=
  match l.head? with
  | none => true
  | some c => !(isIdentChar c || c = '(')

/-- Match a full reference token at the head of the input, enforcing the
trailing boundary. -/
def matchRefTok (l : List Char) : Option Nat :=
  match matchRefCore l with
  | some n => if refBoundary (l.drop n) then some n else none
  | none => none

/-- Skip the remainder of a string literal, including its closing quote. -/
def dropStringLit (cs : List Char) : List Char :=
  cs.drop ((cs.takeWhile (fun d => !(d = '"'))).length + 1)

/-- Structural worker for `scanRefs`; the fuel bounds the recursion depth
and never runs out when it starts at the input length. -/
def scanRefsAux : Nat → List Char → List (List Char)
  | _, [] => []
  | 0, _ :: _ => []
  | fuel + 1, c :: cs =>
    if c = '"' then scanRefsAux fuel (dropStringLit cs)
    else
      match matchRefTok (c :: cs) with
      | some n => (c :: cs).take n :: scanRefsAux fuel (cs.drop (n - 1))
      | none =>
        if isIdentChar c then
          scanRefsAux fuel (cs.drop (cs.takeWhile isIdentChar).length)
        else scanRefsAux fuel cs

/-- Scan a formula's characters, returning every matched raw reference
token (string literals skipped; identifier runs that are not references
skipped whole, so no reference is matched inside an identifier). -/
def scanRefs (l : List Char) : List (List Char) := scanRefsAux l.length l

/-- Normalize a raw reference token: relative/absolute marker characters
(`$`) are removed — only the address matters (spec §4.2). -/
def normalizeRef (t : List Char) : List Char := t.filter (fun c => !(c = '$'))

/-- The dependency set of a formula string: every textually contained cell
or range reference, normalized and deduplicated (spec §4.2).  Total — a
formula with zero references yields `[]`, never an error. -/
def deps (f : String) : List String :=
  (((scanRefs f.data).map normalizeRef).dedup).map (fun t => String.mk t)

/-! ## Frontend options UI (src/frontend/src/App.jsx,
src/frontend/src/components/OptionsPanel.jsx) -/

/-- The frontend's initial options state (App.jsx lines 37–45): all six
include toggles on and `chunk_max_cells` 400. -/
def appInitialOptions : Config :=
  { include_formulas := true
    include_cells := true
    include_comments := true
    include_named_ranges := true
    include_excel_tables := true
    include_inferred_sections := true
    chunk_max_cells := 400 }

/-- Modelled from the spec: the server-side defaults documented in the
README "API Usage" section — every toggle defaults to true and
`chunk_max_cells` to 400 when the caller supplies no value. -/
def apiDefaults : Config :=
  { include_formulas := true
    include_cells := true
    include_comments := true
    include_named_ranges := true
    include_excel_tables := true
    include_inferred_sections := true
    chunk_max_cells := 400 }

/-- The six boolean options listed in OptionsPanel.jsx `optionsList`. -/
inductive OptionKey where
  | formulas | cellMap | comments | namedRanges | excelTables | inferredSections
deriving DecidableEq, Repr

/-- One toggle click (OptionsPanel.jsx: `onOptionChange(option.key,
!isActive)` merged by App.jsx `handleOptionChange`). -/
def toggleOption (o : Config) : OptionKey → Config
  | .formulas => { o with include_formulas := !o.include_formulas }
  | .cellMap => { o with include_cells := !o.include_cells }
  | .comments => { o with include_comments := !o.include_comments }
  | .namedRanges => { o with include_named_ranges := !o.include_named_ranges }
  | .excelTables => { o with include_excel_tables := !o.include_excel_tables }
  | .inferredSections => { o with include_inferred_sections := !o.include_inferred_sections }

/-- The UI events that can change the options state: one of the six
toggles, or a move of the chunk-size slider to a notch. -/
inductive UIEvent where
  | toggleOpt (k : OptionKey)
  | slideChunk (notch : Nat)
deriving DecidableEq, Repr

/-- The value emitted by the chunk-size range input at a given notch:
`min="100" max="2000" step="50"` (OptionsPanel.jsx lines 122–128), so the
browser only ever emits `100 + 50·k` clamped to 2000. -/
def sliderValue (notch : Nat) : Int := min (100 + 50 * (notch : Int)) 2000

/-- Apply one UI event to the options state (App.jsx
`handleOptionChange`). -/
def applyUIEvent (o : Config) : UIEvent → Config
  | .toggleOpt k => toggleOption o k
  | .slideChunk n => { o with chunk_max_cells := sliderValue n }

/-- The options state reached after a sequence of UI interactions, starting
from the initial state of App.jsx. -/
def uiState (evs : List UIEvent) : Config :=
  evs.foldl applyUIEvent appInitialOptions

/-! ## Concrete scenario data (spec §8 scenarios) -/

/-- The "Sales" table of the spec §8 scenarios: range A1:D5, 4 data rows,
3 data columns (12 data cells). -/
def sales : Table := ⟨"Sales", ⟨⟨1, 1⟩, ⟨4, 5⟩⟩, ["Date", "Product", "Qty"]⟩

/-- A one-table sheet hosting the "Sales" scenario table. -/
def salesSheet : Sheet := ⟨"Sheet1", [], [sales], [], [], [], []⟩

/-! ## Lemmas about `groupsOf` -/

theorem groupsOfAux_nil (k fuel : Nat) : groupsOfAux k fuel ([] : List α) = [] := by
  cases fuel <;> rfl

theorem groupsOf_zero (l : List α) : groupsOf 0 l = [] := by
  cases l <;> rfl

theorem length_le_of_mem_groupsOfAux (k fuel : Nat) :
    ∀ (l : List α), ∀ g ∈ groupsOfAux k fuel l, g.length ≤ k := by
  induction fuel with
  | zero =>
    intro l g hg
    cases l <;> simp [groupsOfAux] at hg
  | succ fuel ih =>
    intro l g hg
    cases l with
    | nil => simp [groupsOfAux] at hg
    | cons a l =>
      by_cases hk : k = 0
      · simp [groupsOfAux, hk] at hg
      · simp only [groupsOfAux, if_neg hk] at hg
        rcases List.mem_cons.mp hg with h | h
        · subst h
          simp only [List.length_cons, List.length_take]
          omega
        · exact ih _ g h

theorem length_le_of_mem_groupsOf (k : Nat) (l : List α) :
    ∀ g ∈ groupsOf k l, g.length ≤ k :=
  length_le_of_mem_groupsOfAux k l.length l

theorem groupsOfAux_flatMap {k : Nat} (hk : 1 ≤ k) (f : α → List β) (fuel : Nat) :
    ∀ l : List α, l.length ≤ fuel →
      (groupsOfAux k fuel l).flatMap (fun g => g.flatMap f) = l.flatMap f := by
  induction fuel with
  | zero =>
    intro l hl
    have : l = [] := List.eq_nil_of_length_eq_zero (Nat.le_zero.mp hl)
    subst this
    simp [groupsOfAux]
  | succ fuel ih =>
    intro l hl
    cases l with
    | nil => simp [groupsOfAux]
    | cons a l =>
      simp only [groupsOfAux, if_neg (by omega : ¬ k = 0), List.flatMap_cons]
      have hlen : (l.drop (k - 1)).length ≤ fuel := by
        simp only [List.length_drop]
        simp only [List.length_cons] at hl
        omega
      rw [ih _ hlen, List.append_assoc, ← List.flatMap_append, List.take_append_drop]

theorem groupsOf_flatMap {k : Nat} (hk : 1 ≤ k) (f : α → List β) (l : List α) :
    (groupsOf k l).flatMap (fun g => g.flatMap f) = l.flatMap f :=
  groupsOfAux_flatMap hk f l.length l (Nat.le_refl _)

theorem length_flatMap_rowCells (t : Table) (g : List Nat) :
    (g.flatMap t.rowCells).length = g.length * t.cols := by
  induction g with
  | nil => simp
  | cons r g ih =>
    simp only [List.flatMap_cons, List.length_append, ih, Table.rowCells,
      List.length_map, List.length_range', List.length_cons]
    ring

/-! ## Chunk size bounds -/

theorem cells_length_of_mem_chunksOfTable {s : Sheet} {cap : Nat} {t : Table}
    {c : Chunk} (h : c ∈ chunksOfTable s cap t) : c.cells.length ≤ cap := by
  rcases List.mem_map.mp h with ⟨g, hg, rfl⟩
  by_cases h0 : t.cols = 0
  · rw [h0, Nat.div_zero, groupsOf_zero] at hg
    exact absurd hg (List.not_mem_nil _)
  · have hgl := length_le_of_mem_groupsOf _ _ _ hg
    simp only [length_flatMap_rowCells]
    calc g.length * t.cols ≤ (cap / t.cols) * t.cols := Nat.mul_le_mul_right _ hgl
      _ ≤ cap := Nat.div_mul_le_self _ _

theorem cells_length_of_mem_chunksOfSection {s : Sheet} {cap : Nat} {sec : Section}
    {c : Chunk} (h : c ∈ chunksOfSection s cap sec) : c.cells.length ≤ cap := by
  rcases List.mem_map.mp h with ⟨g, hg, rfl⟩
  exact length_le_of_mem_groupsOf _ _ _ hg

theorem mem_sheetChunks {cap : Nat} {cfg : Config} {s : Sheet} {c : Chunk}
    (h : c ∈ sheetChunks cap cfg s) :
    (∃ t ∈ s.tables, c ∈ chunksOfTable s cap t) ∨
      (∃ sec ∈ s.sections, c ∈ chunksOfSection s cap sec) := by
  unfold sheetChunks at h
  rw [List.mem_mergeSort] at h
  rcases List.mem_append.mp h with h | h
  · left
    split at h
    · exact List.mem_flatMap.mp h
    · exact absurd h (List.not_mem_nil _)
  · right
    split at h
    · exact List.mem_flatMap.mp h
    · exact absurd h (List.not_mem_nil _)

theorem cells_length_of_mem_sheetChunks {cap : Nat} {cfg : Config} {s : Sheet}
    {c : Chunk} (h : c ∈ sheetChunks cap cfg s) : c.cells.length ≤ cap := by
  rcases mem_sheetChunks h with ⟨t, _, hc⟩ | ⟨sec, _, hc⟩
  · exact cells_length_of_mem_chunksOfTable hc
  · exact cells_length_of_mem_chunksOfSection hc

/-- C1: for every workbook and configuration, every chunk emitted by a
successful engine run has member-cell count at most the configured
`chunk_max_cells`. -/
theorem chunk_size_bound (wb : Workbook) (cfg : Config) (outs : List SheetOut)
    (hrun : runEngine wb cfg = Except.ok outs) :
    ∀ so ∈ outs, ∀ c ∈ so.chunks, (c.cells.length : Int) ≤ cfg.chunk_max_cells := by
  unfold runEngine at hrun
  split at hrun
  · exact absurd hrun (by simp)
  · rename_i hpos
    rw [Except.ok.injEq] at hrun
    subst hrun
    intro so hso c hc
    rcases List.mem_map.mp hso with ⟨s, _, rfl⟩
    have hlen : c.cells.length ≤ cfg.chunk_max_cells.toNat :=
      cells_length_of_mem_sheetChunks hc
    have h0 : (0 : Int) ≤ cfg.chunk_max_cells := by omega
    calc (c.cells.length : Int) ≤ (cfg.chunk_max_cells.toNat : Int) := by
          exact_mod_cast hlen
      _ = cfg.chunk_max_cells := Int.toNat_of_nonneg h0

/-- A placeholder chunk used only as the default of `headD` in witnesses. -/
def dChunk0 : Chunk := ⟨⟨"", "", []⟩, "", "", ⟨⟨0, 0⟩, ⟨0, 0⟩⟩, "", []⟩

/-- Witness for C1 at the concrete Sales workbook with the default
configuration, evaluated at its first emitted chunk. -/
theorem chunk_size_bound_witness :
    ((((chunksOfTable salesSheet 400 sales).headD dChunk0).cells.length : Int) ≤
      apiDefaults.chunk_max_cells) :=
  chunk_size_bound ⟨[salesSheet]⟩ apiDefaults _ rfl
    (serializeSheet apiDefaults 400 salesSheet) (List.mem_singleton.mpr rfl)
    ((chunksOfTable salesSheet 400 sales).headD dChunk0)
    (List.mem_mergeSort.mpr (by decide))

/-- C7: a configuration with `chunk_max_cells` ≤ 0 is rejected as a fatal
request-level error before any workbook processing: the result is the same
configuration error for every workbook. -/
theorem config_error_fatal (wb : Workbook) (cfg : Config)
    (h : cfg.chunk_max_cells ≤ 0) :
    runEngine wb cfg = Except.error configErrMsg ∧
      ∀ outs, runEngine wb cfg ≠ Except.ok outs := by
  unfold runEngine
  rw [if_pos h]
  exact ⟨rfl, fun _ => by simp⟩

/-- Witness for C7 at `chunk_max_cells = 0`. -/
theorem config_error_fatal_witness :
    runEngine ⟨[salesSheet]⟩ ⟨true, true, true, true, true, true, 0⟩ =
      Except.error configErrMsg :=
  (config_error_fatal ⟨[salesSheet]⟩ ⟨true, true, true, true, true, true, 0⟩
    (by decide)).1

/-- C8: the documented API default for `chunk_max_cells` is 400, and the
frontend initializes its conversion request with `chunk_max_cells` 400 and
all six include toggles enabled (App.jsx lines 37–45). -/
theorem default_options_400 :
    apiDefaults.chunk_max_cells = 400 ∧
    appInitialOptions.chunk_max_cells = 400 ∧
    appInitialOptions.include_formulas = true ∧
    appInitialOptions.include_cells = true ∧
    appInitialOptions.include_comments = true ∧
    appInitialOptions.include_named_ranges = true ∧
    appInitialOptions.include_excel_tables = true ∧
    appInitialOptions.include_inferred_sections = true ∧
    appInitialOptions = apiDefaults := by
  decide

theorem ui_chunk_bounds (evs : List UIEvent) :
    ∀ o : Config, 100 ≤ o.chunk_max_cells → o.chunk_max_cells ≤ 2000 →
      100 ≤ (evs.foldl applyUIEvent o).chunk_max_cells ∧
        (evs.foldl applyUIEvent o).chunk_max_cells ≤ 2000 := by
  induction evs with
  | nil => exact fun o h1 h2 => ⟨h1, h2⟩
  | cons e evs ih =>
    intro o h1 h2
    simp only [List.foldl_cons]
    apply ih
    · cases e with
      | toggleOpt k => cases k <;> simpa [applyUIEvent, toggleOption]
      | slideChunk n =>
        simp only [applyUIEvent, sliderValue]
        omega
    · cases e with
      | toggleOpt k => cases k <;> simpa [applyUIEvent, toggleOption]
      | slideChunk n =>
        simp only [applyUIEvent, sliderValue]
        omega

/-- C10: after every sequence of UI interactions, the submitted
`chunk_max_cells` stays within the slider's [100, 2000] range; in
particular the configuration-error case `chunk_max_cells` ≤ 0 is
unreachable from this interface. -/
theorem ui_chunk_max_cells_in_range (evs : List UIEvent) :
    100 ≤ (uiState evs).chunk_max_cells ∧
      (uiState evs).chunk_max_cells ≤ 2000 ∧
      ¬ (uiState evs).chunk_max_cells ≤ 0 := by
  have h := ui_chunk_bounds evs appInitialOptions (by decide) (by decide)
  unfold uiState
  exact ⟨h.1, h.2, by omega⟩

/-- A small inferred text section used in concrete witnesses. -/
def demoSection : Section :=
  ⟨⟨⟨1, 10⟩, ⟨1, 11⟩⟩, "note", [⟨1, 10⟩, ⟨1, 11⟩]⟩

/-- A sheet with both a table and a section, used in concrete witnesses. -/
def mixedSheet : Sheet :=
  ⟨"Sheet1", [(⟨1, 2⟩, CellValue.num 7), (⟨1, 10⟩, CellValue.str "hello")],
    [sales], [demoSection], [], [], []⟩

/-- A placeholder chunk used only as the default of `headD` in witnesses. -/
def dChunk : Chunk := ⟨⟨"", "", []⟩, "", "", ⟨⟨0, 0⟩, ⟨0, 0⟩⟩, "", []⟩

/-! ## chunk id (C4) -/

/-- C4: `chunk_id` is precisely the (sheet name, range string, content
digest) triple for every emitted table or section chunk, and that triple
determines the id injectively: identical content at the same location
gives the same id, any change of content or location a different one. -/
theorem chunk_id_deterministic (s : Sheet) (cap : Nat) (t : Table)
    (sec : Section) (c c' : Chunk) (hc : c ∈ chunksOfTable s cap t)
    (hc' : c' ∈ chunksOfSection s cap sec) :
    c.chunk_id = ⟨c.sheet, rangeStr c.range, digestOf s c.cells⟩ ∧
    c'.chunk_id = ⟨c'.sheet, rangeStr c'.range, digestOf s c'.cells⟩ ∧
    ∀ (n₁ n₂ r₁ r₂ : String) (d₁ d₂ : List CellValue),
      ChunkId.mk n₁ r₁ d₁ = ChunkId.mk n₂ r₂ d₂ ↔ n₁ = n₂ ∧ r₁ = r₂ ∧ d₁ = d₂ := by
  refine ⟨?_, ?_, ?_⟩
  · rcases List.mem_map.mp hc with ⟨g, _, rfl⟩
    rfl
  · rcases List.mem_map.mp hc' with ⟨g, _, rfl⟩
    rfl
  · intro n₁ n₂ r₁ r₂ d₁ d₂
    simp [ChunkId.mk.injEq]

/-- Witness for C4 at a concrete table chunk and section chunk of the
mixed demo sheet. -/
theorem chunk_id_deterministic_witness :
    ((chunksOfTable mixedSheet 400 sales).headD dChunk).chunk_id =
      ⟨((chunksOfTable mixedSheet 400 sales).headD dChunk).sheet,
        rangeStr ((chunksOfTable mixedSheet 400 sales).headD dChunk).range,
        digestOf mixedSheet ((chunksOfTable mixedSheet 400 sales).headD dChunk).cells⟩ :=
  (chunk_id_deterministic mixedSheet 400 sales demoSection
    ((chunksOfTable mixedSheet 400 sales).headD dChunk)
    ((chunksOfSection mixedSheet 400 demoSection).headD dChunk)
    (by decide) (by decide)).1

/-! ## Determinism and output ordering (C2) -/

theorem chunkLE_trans (a b c : Chunk) (h1 : chunkLE a b = true)
    (h2 : chunkLE b c = true) : chunkLE a c = true := by
  simp only [chunkLE, decide_eq_true_eq] at *
  omega

theorem chunkLE_total (a b : Chunk) : (chunkLE a b || chunkLE b a) = true := by
  simp only [chunkLE, Bool.or_eq_true, decide_eq_true_eq]
  omega

/-- C2: the engine is deterministic — equal decoded workbooks and equal
configurations give identical output — and on success the sheets appear in
workbook sheet order with each sheet's chunk sequence sorted by the total
order (ascending top-left Address) of spec §4.6. -/
theorem engine_deterministic (wb wb' : Workbook) (cfg cfg' : Config)
    (hw : wb = wb') (hc : cfg = cfg') :
    runEngine wb cfg = runEngine wb' cfg' ∧
    ∀ outs, runEngine wb cfg = Except.ok outs →
      outs.map SheetOut.name = wb.sheets.map Sheet.name ∧
      ∀ so ∈ outs, List.Pairwise (fun a b => chunkLE a b = true) so.chunks := by
  subst hw
  subst hc
  refine ⟨rfl, ?_⟩
  intro outs hrun
  unfold runEngine at hrun
  split at hrun
  · exact absurd hrun (by simp)
  · rw [Except.ok.injEq] at hrun
    subst hrun
    constructor
    · rw [List.map_map]
      rfl
    · intro so hso
      rcases List.mem_map.mp hso with ⟨s, _, rfl⟩
      exact List.sorted_mergeSort chunkLE_trans chunkLE_total _

/-- Witness for C2: a second identical run on the Sales workbook is
byte-identical, and the sheet order of its output matches the workbook. -/
theorem engine_deterministic_witness :
    runEngine ⟨[mixedSheet]⟩ apiDefaults = runEngine ⟨[mixedSheet]⟩ apiDefaults ∧
      (Workbook.sheets ⟨[mixedSheet]⟩ |>.map (serializeSheet apiDefaults 400)).map
          SheetOut.name =
        (Workbook.sheets ⟨[mixedSheet]⟩).map Sheet.name :=
  ⟨(engine_deterministic ⟨[mixedSheet]⟩ ⟨[mixedSheet]⟩ apiDefaults apiDefaults
      rfl rfl).1,
   ((engine_deterministic ⟨[mixedSheet]⟩ ⟨[mixedSheet]⟩ apiDefaults apiDefaults
      rfl rfl).2 _ rfl).1⟩

/-! ## Table splitting: fewest row-aligned chunks (C5) -/

theorem ceil_step (n k : Nat) (hk : 1 ≤ k) :
    (n - (k - 1) + k - 1) / k + 1 = (n + k) / k := by
  rcases Nat.lt_or_ge n (k - 1) with h | h
  · have h1 : n - (k - 1) = 0 := by omega
    rw [h1]
    have h2 : (0 + k - 1) / k = 0 := Nat.div_eq_of_lt (by omega)
    have h3 : n / k = 0 := Nat.div_eq_of_lt (by omega)
    rw [h2, Nat.add_div_right _ (by omega : 0 < k), h3]
  · have h1 : n - (k - 1) + k - 1 = n := by omega
    rw [h1, Nat.add_div_right _ (by omega : 0 < k)]

theorem length_groupsOfAux {k : Nat} (hk : 1 ≤ k) (fuel : Nat) :
    ∀ l : List α, l.length ≤ fuel →
      (groupsOfAux k fuel l).length = (l.length + k - 1) / k := by
  induction fuel with
  | zero =>
    intro l hl
    have : l = [] := List.eq_nil_of_length_eq_zero (Nat.le_zero.mp hl)
    subst this
    simp [groupsOfAux, Nat.div_eq_of_lt (by omega : k - 1 < k)]
  | succ fuel ih =>
    intro l hl
    cases l with
    | nil => simp [groupsOfAux, Nat.div_eq_of_lt (by omega : k - 1 < k)]
    | cons a l =>
      simp only [groupsOfAux, if_neg (by omega : ¬ k = 0), List.length_cons]
      have hlen : (l.drop (k - 1)).length ≤ fuel := by
        simp only [List.length_drop]
        simp only [List.length_cons] at hl
        omega
      rw [ih _ hlen]
      simp only [List.length_drop]
      have harg : l.length + 1 + k - 1 = l.length + k := by omega
      rw [harg]
      exact ceil_step l.length k hk

theorem length_groupsOf {k : Nat} (hk : 1 ≤ k) (l : List α) :
    (groupsOf k l).length = (l.length + k - 1) / k :=
  length_groupsOfAux hk l.length l (Nat.le_refl _)

theorem flatten_length_le (k : Nat) (P : List (List α))
    (h : ∀ g ∈ P, g.length ≤ k) : P.flatten.length ≤ P.length * k := by
  induction P with
  | nil => simp
  | cons g P ih =>
    simp only [List.flatten_cons, List.length_append, List.length_cons,
      Nat.succ_mul]
    have h1 := h g (List.mem_cons_self g P)
    have h2 := ih (fun g hg => h g (List.mem_cons_of_mem _ hg))
    omega

theorem groupsOf_minimal {k : Nat} (hk : 1 ≤ k) (l : List α)
    (P : List (List α)) (hflat : P.flatten = l) (hg : ∀ g ∈ P, g.length ≤ k) :
    (groupsOf k l).length ≤ P.length := by
  rw [length_groupsOf hk]
  have h1 : l.length ≤ P.length * k := hflat ▸ flatten_length_le k P hg
  rw [Nat.div_le_iff_le_mul_add_pred (by omega : 0 < k), Nat.mul_comm]
  omega

/-- C5: a table whose data cell count exceeds the cap is split on row
boundaries only (each chunk is a whole run of rows) into the fewest
possible chunks of at most `cap` cells; concretely, the Sales table
(4 data rows × 3 data columns) yields exactly one 12-cell table chunk at
`chunk_max_cells` 400 whose text references "Sales", and at
`chunk_max_cells` 5 at least 3 chunks none exceeding 5 cells. -/
theorem table_split_fewest (s : Sheet) (cap : Nat) (t : Table)
    (h1 : 1 ≤ t.cols) (h2 : t.cols ≤ cap) :
    (∀ c ∈ chunksOfTable s cap t,
        c.cells.length ≤ cap ∧
          ∃ rows : List Nat, c.cells = rows.flatMap t.rowCells ∧
            c.cells.length = rows.length * t.cols) ∧
    (chunksOfTable s cap t).length =
      (t.dataRowCount + cap / t.cols - 1) / (cap / t.cols) ∧
    (∀ P : List (List Nat), P.flatten = t.dataRows →
        (∀ g ∈ P, g.length * t.cols ≤ cap) →
        (chunksOfTable s cap t).length ≤ P.length) ∧
    ((chunksOfTable salesSheet 400 sales).length = 1 ∧
      ∀ c ∈ chunksOfTable salesSheet 400 sales,
        c.kind = "table" ∧ c.cells = sales.dataCells ∧ c.cells.length = 12 ∧
          "Sales".data <:+: c.text.data) ∧
    (3 ≤ (chunksOfTable salesSheet 5 sales).length ∧
      ∀ c ∈ chunksOfTable salesSheet 5 sales, c.cells.length ≤ 5) := by
  have hk : 1 ≤ cap / t.cols := (Nat.one_le_div_iff (by omega)).mpr h2
  refine ⟨?_, ?_, ?_, by decide, by decide⟩
  · intro c hc
    refine ⟨cells_length_of_mem_chunksOfTable hc, ?_⟩
    rcases List.mem_map.mp hc with ⟨g, _, rfl⟩
    exact ⟨g, rfl, length_flatMap_rowCells t g⟩
  · simp only [chunksOfTable, List.length_map]
    rw [length_groupsOf hk]
    simp [Table.dataRows, List.length_range']
  · intro P hflat hgl
    have hg' : ∀ g ∈ P, g.length ≤ cap / t.cols := fun g hg =>
      (Nat.le_div_iff_mul_le (by omega)).mpr (hgl g hg)
    simp only [chunksOfTable, List.length_map]
    exact groupsOf_minimal hk _ P hflat hg'

/-- Witness for C5: the Sales table at cap 5 is split into the ceiling
number of row-aligned chunks. -/
theorem table_split_fewest_witness :
    (chunksOfTable salesSheet 5 sales).length =
      (sales.dataRowCount + 5 / sales.cols - 1) / (5 / sales.cols) :=
  (table_split_fewest salesSheet 5 sales (by decide) (by decide)).2.1

/-! ## Coverage (C3) -/

/-- All table data cells of a sheet. -/
def tablesCells (s : Sheet) : List Address := s.tables.flatMap Table.dataCells

/-- All section member cells of a sheet. -/
def sectionsCells (s : Sheet) : List Address := s.sections.flatMap Section.cells

/-- The addresses of the non-empty cells of a sheet. -/
def nonEmptyCells (s : Sheet) : List Address :=
  (s.cells.filter (fun p => ! decide (p.2 = CellValue.empty))).map Prod.fst

/-- The cells excluded from chunking by configuration: the member cells of
the disabled categories (spec §6). -/
def excludedCells (cfg : Config) (s : Sheet) : List Address :=
  (if cfg.include_excel_tables then [] else tablesCells s) ++
    (if cfg.include_inferred_sections then [] else sectionsCells s)

theorem flatMap_congr {l : List α} {f g : α → List β}
    (h : ∀ a ∈ l, f a = g a) : l.flatMap f = l.flatMap g := by
  induction l with
  | nil => rfl
  | cons a l ih =>
    simp only [List.flatMap_cons]
    rw [h a (List.mem_cons_self a l), ih (fun a ha => h a (List.mem_cons_of_mem _ ha))]

theorem flatMap_singleton_id (l : List α) : l.flatMap (fun a => [a]) = l := by
  induction l with
  | nil => rfl
  | cons a l ih => simp [List.flatMap_cons, ih]

theorem flatMap_cells_chunksOfTable {s : Sheet} {cap : Nat} {t : Table}
    (h2 : t.cols ≤ cap) :
    (chunksOfTable s cap t).flatMap Chunk.cells = t.dataCells := by
  by_cases h0 : t.cols = 0
  · have hr : ∀ r, t.rowCells r = [] := fun r => by
      simp [Table.rowCells, h0, List.range'_zero]
    simp [chunksOfTable, h0, groupsOf_zero, Table.dataCells, hr]
  · have hk : 1 ≤ cap / t.cols := (Nat.one_le_div_iff (by omega)).mpr h2
    unfold chunksOfTable Table.dataCells
    rw [List.flatMap_map]
    exact groupsOf_flatMap hk t.rowCells t.dataRows

theorem flatMap_cells_chunksOfSection {s : Sheet} {cap : Nat} {sec : Section}
    (hcap : 1 ≤ cap) :
    (chunksOfSection s cap sec).flatMap Chunk.cells = sec.cells := by
  unfold chunksOfSection
  rw [List.flatMap_map]
  calc (groupsOf cap sec.cells).flatMap (fun g => g)
      = (groupsOf cap sec.cells).flatMap (fun g => g.flatMap (fun a => [a])) :=
        flatMap_congr (fun g _ => (flatMap_singleton_id g).symm)
    _ = sec.cells.flatMap (fun a => [a]) := groupsOf_flatMap hcap _ _
    _ = sec.cells := flatMap_singleton_id _

theorem flatMap_cells_tables (s : Sheet) (cap : Nat)
    (h : ∀ t ∈ s.tables, t.cols ≤ cap) :
    (s.tables.flatMap (chunksOfTable s cap)).flatMap Chunk.cells = tablesCells s := by
  rw [List.flatMap_assoc]
  exact flatMap_congr (fun t ht => flatMap_cells_chunksOfTable (h t ht))

theorem flatMap_cells_sections (s : Sheet) (cap : Nat) (hcap : 1 ≤ cap) :
    (s.sections.flatMap (chunksOfSection s cap)).flatMap Chunk.cells =
      sectionsCells s := by
  rw [List.flatMap_assoc]
  exact flatMap_congr (fun sec _ => flatMap_cells_chunksOfSection hcap)

/-- C3 (amended): for every sheet whose extracted Tables and Sections
jointly account for exactly its non-empty cells and whose every table has
column count at most the cap, the member cells of the emitted chunks plus
the cells excluded by configuration are exactly the non-empty cells (as a
permutation); when the sheet's non-empty cells are distinct, no cell is
dropped and no cell appears in more than one chunk. -/
theorem chunk_coverage (s : Sheet) (cap : Nat) (cfg : Config)
    (hcap : 1 ≤ cap) (hcols : ∀ t ∈ s.tables, t.cols ≤ cap)
    (hpart : (tablesCells s ++ sectionsCells s).Perm (nonEmptyCells s)) :
    (((sheetChunks cap cfg s).flatMap Chunk.cells ++ excludedCells cfg s).Perm
        (nonEmptyCells s)) ∧
      (∀ a ∈ (sheetChunks cap cfg s).flatMap Chunk.cells, a ∈ nonEmptyCells s) ∧
      ((nonEmptyCells s).Nodup →
        ((sheetChunks cap cfg s).flatMap Chunk.cells).Nodup) := by
  have hperm : ((sheetChunks cap cfg s).flatMap Chunk.cells).Perm
      ((if cfg.include_excel_tables then tablesCells s else []) ++
        (if cfg.include_inferred_sections then sectionsCells s else [])) := by
    unfold sheetChunks
    refine (List.Perm.flatMap_right Chunk.cells (List.mergeSort_perm _ chunkLE)).trans ?_
    rw [List.flatMap_append]
    apply List.Perm.append
    · by_cases htf : cfg.include_excel_tables
      · simp only [if_pos htf]
        rw [flatMap_cells_tables s cap hcols]
      · simp [htf]
    · by_cases hsf : cfg.include_inferred_sections
      · simp only [if_pos hsf]
        rw [flatMap_cells_sections s cap hcap]
      · simp [hsf]
  have hcases : (((if cfg.include_excel_tables then tablesCells s else []) ++
      (if cfg.include_inferred_sections then sectionsCells s else [])) ++
      excludedCells cfg s).Perm (tablesCells s ++ sectionsCells s) := by
    unfold excludedCells
    by_cases htf : cfg.include_excel_tables
    · by_cases hsf : cfg.include_inferred_sections
      · simp [htf, hsf]
      · simp only [if_pos htf, if_neg hsf, List.append_nil, List.nil_append]
        exact List.Perm.refl _
    · by_cases hsf : cfg.include_inferred_sections
      · simp only [if_neg htf, if_pos hsf, List.append_nil, List.nil_append]
        exact List.perm_append_comm
      · simp only [if_neg htf, if_neg hsf, List.append_nil, List.nil_append]
        exact List.Perm.refl _
  have hfull : (((sheetChunks cap cfg s).flatMap Chunk.cells ++
      excludedCells cfg s)).Perm (nonEmptyCells s) :=
    ((hperm.append (List.Perm.refl _)).trans hcases).trans hpart
  refine ⟨hfull, ?_, ?_⟩
  · intro a ha
    exact hfull.subset (List.mem_append_left _ ha)
  · intro hnd
    exact List.Nodup.of_append_left (hfull.nodup_iff.mpr hnd)

/-- A sheet whose table data cells and section cells exactly cover its
non-empty cells, used as the coverage witness. -/
def demoCoverSheet : Sheet :=
  ⟨"S",
    [(⟨1, 2⟩, CellValue.num 1), (⟨2, 2⟩, CellValue.str "x"),
      (⟨1, 3⟩, CellValue.num 2), (⟨2, 3⟩, CellValue.num 3),
      (⟨1, 5⟩, CellValue.str "note")],
    [⟨"T", ⟨⟨1, 1⟩, ⟨2, 3⟩⟩, ["a", "b"]⟩],
    [⟨⟨⟨1, 5⟩, ⟨1, 5⟩⟩, "note", [⟨1, 5⟩]⟩], [], [], []⟩

/-- Witness for C3 at the mixed demo sheet, whose table cells and section
cells exactly cover its non-empty cells. -/
theorem chunk_coverage_witness :
    ((sheetChunks 400 apiDefaults demoCoverSheet).flatMap Chunk.cells ++
        excludedCells apiDefaults demoCoverSheet).Perm
      (nonEmptyCells demoCoverSheet) :=
  (chunk_coverage demoCoverSheet 400 apiDefaults (by decide) (by decide)
    (by decide)).1

/-- A sheet with a single stray numeric cell: spec-conformant upstream
output extracts no table from it (§4.4's header row needs text cells) and
no section (§4.5 groups only str-typed cells), so its tables and sections
are both empty while the cell is non-empty. -/
def strayNumSheet : Sheet :=
  ⟨"S", [(⟨1, 1⟩, CellValue.num 7)], [], [], [], [], []⟩

/-- C3 counterexample: with every category enabled, the stray numeric cell
of `strayNumSheet` is a non-empty cell that belongs to no chunk and is not
excluded by configuration, so the union of chunk member cells plus the
configuration-excluded cells is not the set of non-empty cells. -/
theorem chunk_coverage_counterexample :
    ¬ (((sheetChunks 400 apiDefaults strayNumSheet).flatMap Chunk.cells ++
        excludedCells apiDefaults strayNumSheet).Perm
      (nonEmptyCells strayNumSheet)) := by
  intro h
  have hempty : sheetChunks 400 apiDefaults strayNumSheet = [] := by
    simp [sheetChunks, strayNumSheet, apiDefaults]
  rw [hempty] at h
  have hlen := h.length_eq
  simp [excludedCells, strayNumSheet, nonEmptyCells, apiDefaults] at hlen

/-! ## Independence of the configuration toggles (C9) -/

/-- Whether a chunk's category is enabled by the configuration. -/
def kindEnabled (cfg : Config) (c : Chunk) : Bool :=
  if c.kind = "table" then cfg.include_excel_tables else cfg.include_inferred_sections

/-- The configuration with both chunk-producing categories enabled. -/
def allOn (cfg : Config) : Config :=
  { cfg with include_excel_tables := true, include_inferred_sections := true }

/-- The sort key of a chunk: top-left row, top-left column, kind rank. -/
def chunkKey (c : Chunk) : Nat × Nat × Nat :=
  (c.range.topLeft.row, c.range.topLeft.col, kindRank c.kind)

/-- Strict version of the chunk emission order. -/
def chunkLT (a b : Chunk) : Prop :=
  a.range.topLeft.row < b.range.topLeft.row ∨
    (a.range.topLeft.row = b.range.topLeft.row ∧
      (a.range.topLeft.col < b.range.topLeft.col ∨
        (a.range.topLeft.col = b.range.topLeft.col ∧
          kindRank a.kind < kindRank b.kind)))

theorem pairwise_lt_of_le_keys {l : List Chunk}
    (hle : List.Pairwise (fun a b => chunkLE a b = true) l)
    (hk : (l.map chunkKey).Nodup) : List.Pairwise chunkLT l := by
  have hne : List.Pairwise (fun a b => chunkKey a ≠ chunkKey b) l :=
    List.pairwise_map.mp hk
  refine (hle.and hne).imp ?_
  rintro a b ⟨h1, h2⟩
  simp only [chunkLE, decide_eq_true_eq] at h1
  simp only [chunkKey, ne_eq, Prod.mk.injEq, not_and] at h2
  unfold chunkLT
  omega

theorem mergeSort_filter_comm (p : Chunk → Bool) (L : List Chunk)
    (hkeys : (L.map chunkKey).Nodup) :
    (L.filter p).mergeSort chunkLE = (L.mergeSort chunkLE).filter p := by
  have h1 : ((L.filter p).mergeSort chunkLE).Perm (L.filter p) :=
    List.mergeSort_perm _ _
  have h2 : ((L.mergeSort chunkLE).filter p).Perm (L.filter p) :=
    (List.mergeSort_perm L chunkLE).filter p
  have s1 : List.Pairwise (fun a b => chunkLE a b = true)
      ((L.filter p).mergeSort chunkLE) :=
    List.sorted_mergeSort chunkLE_trans chunkLE_total _
  have s2 : List.Pairwise (fun a b => chunkLE a b = true)
      ((L.mergeSort chunkLE).filter p) :=
    List.Pairwise.filter p (List.sorted_mergeSort chunkLE_trans chunkLE_total _)
  have k1 : (((L.filter p).mergeSort chunkLE).map chunkKey).Nodup := by
    refine ((h1.map chunkKey).nodup_iff).mpr ?_
    exact List.Nodup.sublist ((List.filter_sublist L).map chunkKey) hkeys
  have k2 : (((L.mergeSort chunkLE).filter p).map chunkKey).Nodup := by
    have hm : ((L.mergeSort chunkLE).map chunkKey).Nodup :=
      (((List.mergeSort_perm L chunkLE).map chunkKey).nodup_iff).mpr hkeys
    exact List.Nodup.sublist ((List.filter_sublist _).map chunkKey) hm
  haveI : IsAntisymm Chunk chunkLT := ⟨fun a b ha hb => by
    exfalso
    unfold chunkLT at ha hb
    omega⟩
  exact List.eq_of_perm_of_sorted (h1.trans h2.symm)
    (pairwise_lt_of_le_keys s1 k1) (pairwise_lt_of_le_keys s2 k2)

theorem kind_of_mem_tableChunks {s : Sheet} {cap : Nat} {c : Chunk}
    (h : c ∈ s.tables.flatMap (chunksOfTable s cap)) : c.kind = "table" := by
  rcases List.mem_flatMap.mp h with ⟨t, _, hc⟩
  rcases List.mem_map.mp hc with ⟨g, _, rfl⟩
  rfl

theorem kind_of_mem_sectionChunks {s : Sheet} {cap : Nat} {c : Chunk}
    (h : c ∈ s.sections.flatMap (chunksOfSection s cap)) : c.kind = "section" := by
  rcases List.mem_flatMap.mp h with ⟨sec, _, hc⟩
  rcases List.mem_map.mp hc with ⟨g, _, rfl⟩
  rfl

/-- C9: each of the seven recognized options is an independent toggle —
disabling a category removes exactly that category from the serialized
output (its field becomes `none`, its chunks are filtered out), while the
chunks of the categories that remain enabled keep identical `chunk_id`s
and identical relative order. -/
theorem toggles_independent (s : Sheet) (cap : Nat) (cfg : Config)
    (hkeys : ((s.tables.flatMap (chunksOfTable s cap) ++
        s.sections.flatMap (chunksOfSection s cap)).map chunkKey).Nodup) :
    sheetChunks cap cfg s =
      (sheetChunks cap (allOn cfg) s).filter (kindEnabled cfg) ∧
    (sheetChunks cap cfg s).map Chunk.chunk_id =
      ((sheetChunks cap (allOn cfg) s).filter (kindEnabled cfg)).map
        Chunk.chunk_id ∧
    (cfg.include_cells = false → (serializeSheet cfg cap s).cellsOut = none) ∧
    (cfg.include_formulas = false → (serializeSheet cfg cap s).formulasOut = none) ∧
    (cfg.include_comments = false → (serializeSheet cfg cap s).commentsOut = none) ∧
    (cfg.include_named_ranges = false →
      (serializeSheet cfg cap s).namedRangesOut = none) ∧
    (cfg.include_excel_tables = false → (serializeSheet cfg cap s).tablesOut = none) ∧
    (cfg.include_inferred_sections = false →
      (serializeSheet cfg cap s).sectionsOut = none) ∧
    (serializeSheet cfg cap s).chunks = sheetChunks cap cfg s := by
  have hfT : (s.tables.flatMap (chunksOfTable s cap)).filter (kindEnabled cfg) =
      (if cfg.include_excel_tables then s.tables.flatMap (chunksOfTable s cap)
        else []) := by
    cases htf : cfg.include_excel_tables with
    | true =>
      simp only [if_pos rfl]
      refine List.filter_eq_self.mpr (fun c hc => ?_)
      simp [kindEnabled, kind_of_mem_tableChunks hc, htf]
    | false =>
      rw [if_neg Bool.false_ne_true]
      refine List.filter_eq_nil_iff.mpr (fun c hc => ?_)
      simp [kindEnabled, kind_of_mem_tableChunks hc, htf]
  have hfS : (s.sections.flatMap (chunksOfSection s cap)).filter (kindEnabled cfg) =
      (if cfg.include_inferred_sections then
        s.sections.flatMap (chunksOfSection s cap) else []) := by
    cases hsf : cfg.include_inferred_sections with
    | true =>
      simp only [if_pos rfl]
      refine List.filter_eq_self.mpr (fun c hc => ?_)
      simp [kindEnabled, kind_of_mem_sectionChunks hc, hsf]
    | false =>
      rw [if_neg Bool.false_ne_true]
      refine List.filter_eq_nil_iff.mpr (fun c hc => ?_)
      simp [kindEnabled, kind_of_mem_sectionChunks hc, hsf]
  have hmain : sheetChunks cap cfg s =
      (sheetChunks cap (allOn cfg) s).filter (kindEnabled cfg) := by
    have hbase : sheetChunks cap (allOn cfg) s =
        (s.tables.flatMap (chunksOfTable s cap) ++
          s.sections.flatMap (chunksOfSection s cap)).mergeSort chunkLE := by
      simp [sheetChunks, allOn]
    rw [hbase, ← mergeSort_filter_comm _ _ hkeys]
    unfold sheetChunks
    rw [List.filter_append, hfT, hfS]
  refine ⟨hmain, by rw [hmain], ?_, ?_, ?_, ?_, ?_, ?_, rfl⟩ <;>
    (intro h; simp [serializeSheet, h])

/-- Configuration with inferred sections disabled, for the C9 witness. -/
def cfgNoSections : Config := ⟨true, true, true, true, true, false, 400⟩

/-- Witness for C9: on the mixed demo sheet, disabling inferred sections
leaves exactly the table chunks, in order. -/
theorem toggles_independent_witness :
    sheetChunks 400 cfgNoSections mixedSheet =
      (sheetChunks 400 (allOn cfgNoSections) mixedSheet).filter
        (kindEnabled cfgNoSections) :=
  (toggles_independent mixedSheet 400 cfgNoSections (by decide)).1

/-! ## Formula parser soundness (C6) -/

theorem isInf_of_take (l : List α) (n : Nat) : l.take n <:+: l :=
  ⟨[], l.drop n, by simp⟩

theorem isInf_of_drop (l : List α) (n : Nat) : l.drop n <:+: l :=
  ⟨l.take n, [], by simp⟩

theorem isInf_cons {t l : List α} (c : α) (h : t <:+: l) : t <:+: c :: l :=
  h.trans ⟨[c], [], by simp⟩

theorem isInf_filter (p : α → Bool) {l₁ l₂ : List α} (h : l₁ <:+: l₂) :
    l₁.filter p <:+: l₂.filter p := by
  rcases h with ⟨u, v, rfl⟩
  exact ⟨u.filter p, v.filter p, by simp [List.filter_append]⟩

theorem mem_scanRefsAux_isInf (fuel : Nat) :
    ∀ (l : List Char), ∀ t ∈ scanRefsAux fuel l, t <:+: l := by
  induction fuel with
  | zero =>
    intro l t ht
    cases l <;> simp [scanRefsAux] at ht
  | succ fuel ih =>
    intro l t ht
    cases l with
    | nil => simp [scanRefsAux] at ht
    | cons c cs =>
      by_cases hq : c = '"'
      · simp only [scanRefsAux, if_pos hq] at ht
        refine isInf_cons c ((ih _ t ht).trans ?_)
        unfold dropStringLit
        exact isInf_of_drop cs _
      · cases hm : matchRefTok (c :: cs) with
        | some n =>
          simp only [scanRefsAux, if_neg hq, hm] at ht
          rcases List.mem_cons.mp ht with h | h
          · subst h
            exact isInf_of_take _ n
          · exact isInf_cons c ((ih _ t h).trans (isInf_of_drop cs _))
        | none =>
          by_cases hid : isIdentChar c
          · simp only [scanRefsAux, if_neg hq, hm, if_pos hid] at ht
            exact isInf_cons c ((ih _ t ht).trans (isInf_of_drop cs _))
          · simp only [scanRefsAux, if_neg hq, hm, if_neg hid] at ht
            exact isInf_cons c (ih _ t ht)

theorem mem_scanRefs_isInf {l : List Char} : ∀ t ∈ scanRefs l, t <:+: l :=
  mem_scanRefsAux_isInf l.length l

/-- C6 (amended): every dependency extracted by the formula reference
parser occurs textually in the formula string once the relative/absolute
marker characters (`$`), which the parser normalizes away, are removed;
the returned dependency set is deduplicated; and a formula with zero
references yields the empty set rather than an error, while the spec §8
scenario formula yields exactly the dependency set {A1, Sheet2!C3}. -/
theorem deps_sound (f : String) :
    (∀ d ∈ deps f, d.data <:+: f.data.filter (fun c => ! (c = '$'))) ∧
    (deps f).Nodup ∧
    deps "=SUM(1,2)" = [] ∧
    deps "=A1+Sheet2!C3" = ["A1", "Sheet2!C3"] := by
  refine ⟨?_, ?_, by decide, by decide⟩
  · intro d hd
    unfold deps at hd
    rcases List.mem_map.mp hd with ⟨t', ht', rfl⟩
    rw [List.mem_dedup] at ht'
    rcases List.mem_map.mp ht' with ⟨t, ht, rfl⟩
    exact isInf_filter (fun c => ! (c = '$')) (mem_scanRefs_isInf t ht)
  · unfold deps
    refine List.Nodup.map ?_ (List.nodup_dedup _)
    intro x y h
    exact congrArg String.data h

/-- Witness for C6 at the spec §8 scenario formula. -/
theorem deps_sound_witness :
    deps "=A1+Sheet2!C3" = ["A1", "Sheet2!C3"] :=
  (deps_sound "=A1+Sheet2!C3").2.2.2

/-- C6 counterexample: for the formula `=$A$1+1` the parser extracts the
normalized dependency `A1`, yet the string `A1` does not occur textually
in the formula (the absolute marker `$` separates its characters), so
normalization and literal textual occurrence cannot both hold. -/
theorem deps_textual_counterexample :
    deps "=$A$1+1" = ["A1"] ∧ ¬ ("A1".data <:+: "=$A$1+1".data) :=
  ⟨by decide, by decide⟩

/-- Witness for C10 at a concrete slider event sequence. -/
theorem ui_chunk_max_cells_in_range_witness :
    100 ≤ (uiState [UIEvent.slideChunk 38]).chunk_max_cells ∧
      (uiState [UIEvent.slideChunk 38]).chunk_max_cells ≤ 2000 ∧
      ¬ (uiState [UIEvent.slideChunk 38]).chunk_max_cells ≤ 0 :=
  ui_chunk_max_cells_in_range [UIEvent.slideChunk 38]

end ExcelToJson
